import Mathlib

/-!
# Verification of the errgo layered-error library

A shallow embedding of the `errgo` Go package (file `errgo.go`): a Diagnosis
is an error together with layered error annotations, backed by an ordered
slice of errors (`type diagnosis []error`), with free functions
New / Cause / Wrap / Unwrap / UnwrapAll dispatching on whether the argument
satisfies the Diagnosis (and optionally AllUnwrapper) interfaces.

Go `error` interface values are embedded as the inductive type `GoErr`:
  * `GoErr.nil`   — the nil interface value;
  * `GoErr.plain` — any error value that satisfies neither the Diagnosis nor
                    the AllUnwrapper interface, identified by its message;
  * `GoErr.diag`  — the package's concrete `diagnosis` value (a slice of
                    errors, index 0 oldest), which satisfies both interfaces.

Custom third-party Diagnosis implementations (satisfying only the three
required methods) are embedded separately and generically: see `Simulates`
and `peelLoop` below, which model the iterative-peel fallback of UnwrapAll.

The slice-aliasing behaviour of `append` (shared backing arrays with spare
capacity) is embedded at a lower level by `Heap`/`Slice`/`appendSlice`.
-/

set_option autoImplicit false

namespace Errgo

/-- Embedding of Go `error` interface values as they occur in this package. -/
inductive GoErr : Type where
  | nil : GoErr
  | plain : String → GoErr
  | diag : List GoErr → GoErr

/-- Whether an error value satisfies the `Diagnosis` interface.
The nil interface value never satisfies a type assertion in Go. -/
def isDiagnosis : GoErr → Bool
  | .diag _ => true
  | _ => false

/-- Whether an error value is a plain error: non-nil and satisfying neither
the `Diagnosis` nor the `AllUnwrapper` interface. -/
def isPlain : GoErr → Bool
  | .plain _ => true
  | _ => false

/-- The `Error()` method of an error value.  For `diagnosis` this is
`func (d diagnosis) Error() string`: the message of the last element if the
slice is non-empty, `""` otherwise (recursing into the element's own
`Error()`).  Calling `Error()` on the nil interface is a Go panic and is
never exercised here; it is mapped to `""`. -/
def errMsg : GoErr → String
  | .nil => ""
  | .plain m => m
  | .diag [] => ""
  | .diag [e] => errMsg e
  | .diag (_ :: e :: es) => errMsg (GoErr.diag (e :: es))

/-- `func (d diagnosis) Error() string` — the message of a concrete
diagnosis, expressed on its underlying slice. -/
def diagError (d : List GoErr) : String := errMsg (GoErr.diag d)

/-- `func (d diagnosis) Cause() error`: `d[0]` if the slice is non-empty,
nil otherwise. -/
def diagCause (d : List GoErr) : GoErr := d.headD GoErr.nil

/-- `func (d diagnosis) Wrap(err error) Diagnosis { return append(d, err) }`
— the functional (value) view of the append; the shared-backing-array view
is `appendSlice` below. -/
def diagWrap (d : List GoErr) (e : GoErr) : List GoErr := d ++ [e]

/-- `func (d diagnosis) Unwrap() (Diagnosis, error)`: on length 0 return
`(nil, nil)`; on length 1 return `(nil, d[0])`; otherwise return
`(d[:len(d)-1], d[len(d)-1])`.  A nil Diagnosis result is `none`. -/
def diagUnwrap (d : List GoErr) : Option (List GoErr) × GoErr :=
  match d with
  | [] => (none, GoErr.nil)
  | [e] => (none, e)
  | _ :: _ :: _ => (some d.dropLast, d.getLastD GoErr.nil)

/-- `func (d diagnosis) UnwrapAll() []error { return d }` — the optional
`AllUnwrapper` interface of the concrete diagnosis. -/
def diagUnwrapAll (d : List GoErr) : List GoErr := d

/-- `func New(err error) Diagnosis`: if `err` is already a Diagnosis return
it unaltered, otherwise return `diagnosis{err}`. -/
def New : GoErr → GoErr
  | .diag d => .diag d
  | e => .diag [e]

/-- The `Wrap` method dispatched on a `Diagnosis` interface value.  The only
concrete implementation in the package is `diagnosis.Wrap`; a non-Diagnosis
receiver is unreachable through the package's interface and is returned
unchanged. -/
def wrapM (recv e : GoErr) : GoErr :=
  match recv with
  | .diag d => .diag (diagWrap d e)
  | r => r

/-- `func Cause(err error) error`: delegate to the Diagnosis `Cause` method
if `err` satisfies Diagnosis, otherwise return `err` itself. -/
def Cause : GoErr → GoErr
  | .diag d => diagCause d
  | e => e

/-- `func Wrap(err, annot error) Diagnosis { return New(err).Wrap(annot) }` -/
def Wrap (err ann : GoErr) : GoErr := wrapM (New err) ann

/-- `func Unwrap(err error) (Diagnosis, error)`: delegate to the Diagnosis
`Unwrap` method if `err` satisfies Diagnosis, otherwise `(nil, err)`. -/
def Unwrap : GoErr → Option (List GoErr) × GoErr
  | .diag d => diagUnwrap d
  | e => (none, e)

/-- `func UnwrapAll(err error) []error`: nil gives the empty slice; an
`AllUnwrapper` (which the concrete diagnosis is) gives its stored slice
directly; a plain error gives a single-element slice.  The intermediate
`case Diagnosis` arm (the iterative-peel fallback) is reachable only for
third-party Diagnosis implementations, which `GoErr` does not contain; that
arm is embedded generically as `unwrapAllViaPeel` below. -/
def UnwrapAll : GoErr → List GoErr
  | .nil => []
  | .diag d => diagUnwrapAll d
  | e => [e]

/-! ## The iterative-peel fallback of UnwrapAll

The `case Diagnosis` arm of `UnwrapAll` serves third-party implementations
of the Diagnosis interface that do not implement `AllUnwrapper`.  Such an
implementation is embedded generically: a state type `S` together with its
`Unwrap` method `u : S → Option S × GoErr` (a nil Diagnosis result is
`none`).  The Go loop

    var errs []error
    for d != nil {
        d, err = d.Unwrap()
        errs = append(errs, err)
    }
    return reverse(errs)

is embedded as `peelLoop` (fuel-indexed, since an arbitrary `u` need not
terminate; the theorems supply enough fuel) followed by `List.reverse`,
which models the package's in-place `reverse` helper. -/

/-- The peeling loop body of `UnwrapAll`: repeatedly call the `Unwrap`
method, collecting the peeled-off errors newest-first, stopping when the
remaining Diagnosis is nil (or when fuel runs out). -/
def peelLoop {S : Type} (u : S → Option S × GoErr) : Nat → S → List GoErr
  | 0, _ => []
  | fuel + 1, s =>
    match u s with
    | (none, e) => [e]
    | (some s', e) => e :: peelLoop u fuel s'

/-- The `case Diagnosis` arm of `UnwrapAll`: peel newest-first, then reverse
so the result is oldest-first. -/
def unwrapAllViaPeel {S : Type} (u : S → Option S × GoErr) (fuel : Nat) (s : S) :
    List GoErr :=
  (peelLoop u fuel s).reverse

/-- An `Unwrap` method `u` on states `S` implements the Diagnosis peeling
contract with respect to an abstraction `abs` of states to layer lists:
on every state it returns the same peeled error and (under `abs`) the same
remaining Diagnosis as the concrete `diagnosis.Unwrap` does on the
abstraction. -/
def Simulates {S : Type} (u : S → Option S × GoErr) (abs : S → List GoErr) : Prop :=
  ∀ s, (u s).2 = (diagUnwrap (abs s)).2 ∧
    Option.map abs (u s).1 = (diagUnwrap (abs s)).1

/-! ## Slice-level model of `append` for the aliasing hazard

`diagnosis.Wrap` is `append(d, err)` on a Go slice.  Go's `append` writes
the new element into the existing backing array when spare capacity is
available (sharing storage with every other slice over that array), and
allocates a fresh array (roughly doubling the capacity) otherwise.  A
backing array is a list whose length is its capacity, with unused cells
holding the zero value `GoErr.nil`; a heap is the list of allocated arrays;
a slice is an array index plus a length (all slices in this package start
at offset 0). -/

/-- A Go slice header over a heap: backing-array index and length. -/
structure Slice : Type where
  arr : Nat
  len : Nat

/-- The allocated backing arrays; each list's length is the array's
capacity. -/
abbrev Heap : Type := List (List GoErr)

/-- The backing array of index `a`. -/
def readArr (h : Heap) (a : Nat) : List GoErr := List.getD h a []

/-- The elements a slice denotes: the first `len` cells of its backing
array. -/
def sliceView (h : Heap) (s : Slice) : List GoErr := (readArr h s.arr).take s.len

/-- Capacity growth of `append` on a full backing array (Go doubles small
slices). -/
def growCap (c : Nat) : Nat := if c = 0 then 1 else 2 * c

/-- Go `append(s, e)` of one element: if the backing array has spare
capacity, write `e` in place at index `len` (shared storage); otherwise
allocate a fresh, larger array holding the old elements and `e`.  Returns
the updated heap and the resulting slice header. -/
def appendSlice (h : Heap) (s : Slice) (e : GoErr) : Heap × Slice :=
  let backing := readArr h s.arr
  if s.len < backing.length then
    (List.set h s.arr (List.set backing s.len e), ⟨s.arr, s.len + 1⟩)
  else
    let newCap := growCap backing.length
    let newArr := backing.take s.len ++ [e] ++
      List.replicate (newCap - (s.len + 1)) GoErr.nil
    (h ++ [newArr], ⟨List.length h, s.len + 1⟩)

/-- `func (d diagnosis) Wrap(err error) Diagnosis { return append(d, err) }`
at the slice level. -/
def wrapS (h : Heap) (d : Slice) (e : GoErr) : Heap × Slice := appendSlice h d e

/-! ## Diagnosis values reachable through the public interface

The `diagnosis` type is unexported, so callers obtain concrete diagnosis
values only from `New` on a non-Diagnosis error, from a `Wrap` (the free
function is `New` followed by the method), or as the remaining Diagnosis of
an `Unwrap`. -/

/-- The underlying slices of concrete diagnosis values producible through
the package's public interface. -/
inductive ReachesDiag : List GoErr → Prop where
  | new (e : GoErr) : isDiagnosis e = false → ReachesDiag [e]
  | wrap (d : List GoErr) (e : GoErr) : ReachesDiag d → ReachesDiag (diagWrap d e)
  | unwrap (d d' : List GoErr) (e : GoErr) : ReachesDiag d →
      diagUnwrap d = (some d', e) → ReachesDiag d'

/-! ## Helper lemmas -/

/-- A plain error is a `GoErr.plain`. -/
theorem isPlain_iff (e : GoErr) : isPlain e = true ↔ ∃ m, e = GoErr.plain m := by
  cases e <;> simp [isPlain]

/-- The concrete `diagnosis.Unwrap` implements the peeling contract with
respect to the identity abstraction. -/
theorem diagUnwrap_simulates_id : Simulates diagUnwrap id := by
  intro s
  simp

/-- Reversing a non-empty list puts its last element first. -/
theorem reverse_eq_getLastD_cons (l : List GoErr) (hl : l ≠ []) :
    l.reverse = l.getLastD GoErr.nil :: l.dropLast.reverse := by
  induction l with
  | nil => exact absurd rfl hl
  | cons a t ih =>
    cases t with
    | nil => simp
    | cons b t' =>
      have ht : (b :: t') ≠ ([] : List GoErr) := by simp
      simp only [List.reverse_cons, ih ht, List.getLastD_cons, List.dropLast_cons₂]
      simp

/-- The peeling loop of `UnwrapAll`, run with enough fuel on any state whose
`Unwrap` method satisfies the peeling contract for a non-empty abstraction,
collects exactly the abstraction's layers newest-first. -/
theorem peelLoop_eq {S : Type} (u : S → Option S × GoErr) (abs : S → List GoErr)
    (hsim : Simulates u abs) :
    ∀ (fuel : Nat) (s : S), abs s ≠ [] → (abs s).length ≤ fuel →
      peelLoop u fuel s = (abs s).reverse := by
  intro fuel
  induction fuel with
  | zero =>
    intro s hne hlen
    exact absurd (List.eq_nil_of_length_eq_zero (Nat.le_zero.mp hlen)) hne
  | succ n ih =>
    intro s hne hlen
    obtain ⟨h2, h1⟩ := hsim s
    rcases hu : u s with ⟨o, pe⟩
    rw [hu] at h2 h1
    match habs : abs s with
    | [] => exact absurd habs hne
    | [e] =>
      rw [habs] at h2 h1
      simp [diagUnwrap] at h2 h1
      subst h2
      subst h1
      simp [peelLoop, hu, habs]
    | a :: b :: t =>
      rw [habs] at h2 h1
      simp only [diagUnwrap] at h2 h1
      rw [Option.map_eq_some'] at h1
      obtain ⟨s', ho, habs'⟩ := h1
      subst h2
      subst ho
      have hne' : abs s' ≠ [] := by
        rw [habs']
        simp [List.dropLast_cons₂]
      have hlen' : (abs s').length ≤ n := by
        rw [habs']
        have := hlen
        rw [habs] at this
        simp only [List.length_dropLast, List.length_cons] at *
        omega
      have := ih s' hne' hlen'
      simp only [peelLoop, hu, this, habs']
      exact (reverse_eq_getLastD_cons (a :: b :: t) (by simp)).symm

/-! ## The claims -/

/-- C1: for plain non-nil errors `e0`, `e1`, `e2`, the diagnosis
`d = New(e0).Wrap(e1).Wrap(e2)` satisfies `d.Error() = e2.Error()`,
`d.Cause() = e0`, and `UnwrapAll(d) = [e0, e1, e2]` (oldest first). -/
theorem wrap_chain_spec (e0 e1 e2 : GoErr) (h0 : isPlain e0 = true)
    (h1 : isPlain e1 = true) (h2 : isPlain e2 = true) :
    errMsg (wrapM (wrapM (New e0) e1) e2) = errMsg e2 ∧
    Cause (wrapM (wrapM (New e0) e1) e2) = e0 ∧
    UnwrapAll (wrapM (wrapM (New e0) e1) e2) = [e0, e1, e2] := by
  obtain ⟨m0, rfl⟩ := (isPlain_iff e0).mp h0
  obtain ⟨m1, rfl⟩ := (isPlain_iff e1).mp h1
  obtain ⟨m2, rfl⟩ := (isPlain_iff e2).mp h2
  refine ⟨?_, rfl, rfl⟩
  simp [New, wrapM, diagWrap, errMsg]

/-- C1 witness at the spec's concrete scenario. -/
theorem wrap_chain_spec_witness :
    errMsg (wrapM (wrapM (New (GoErr.plain "disk full")) (GoErr.plain "flush failed"))
        (GoErr.plain "commit failed")) = errMsg (GoErr.plain "commit failed") ∧
    Cause (wrapM (wrapM (New (GoErr.plain "disk full")) (GoErr.plain "flush failed"))
        (GoErr.plain "commit failed")) = GoErr.plain "disk full" ∧
    UnwrapAll (wrapM (wrapM (New (GoErr.plain "disk full")) (GoErr.plain "flush failed"))
        (GoErr.plain "commit failed"))
      = [GoErr.plain "disk full", GoErr.plain "flush failed", GoErr.plain "commit failed"] :=
  wrap_chain_spec (GoErr.plain "disk full") (GoErr.plain "flush failed")
    (GoErr.plain "commit failed") rfl rfl rfl

/-- C2: repeated `Unwrap` on a three-layer concrete diagnosis peels
newest-first: `(some [e0, e1], e2)`, then `(some [e0], e1)`, then
`(none, e0)`; on a single-element diagnosis the remaining Diagnosis is nil
(`none`), not an empty-but-present diagnosis. -/
theorem unwrap_peels_newest_first (e0 e1 e2 : GoErr) :
    Unwrap (GoErr.diag [e0, e1, e2]) = (some [e0, e1], e2) ∧
    Unwrap (GoErr.diag [e0, e1]) = (some [e0], e1) ∧
    Unwrap (GoErr.diag [e0]) = (none, e0) ∧
    diagUnwrap [e0] ≠ (some [], e0) :=
  ⟨rfl, rfl, rfl, by simp [diagUnwrap]⟩

/-- C3: `UnwrapAll` returns the empty slice on nil, the stored slice
directly on an `AllUnwrapper` (the concrete diagnosis), and a one-element
slice on a plain error. -/
theorem unwrapAll_dispatch :
    UnwrapAll GoErr.nil = [] ∧
    (∀ d : List GoErr, UnwrapAll (GoErr.diag d) = diagUnwrapAll d) ∧
    (∀ e : GoErr, isPlain e = true → UnwrapAll e = [e]) := by
  refine ⟨rfl, fun d => rfl, fun e he => ?_⟩
  obtain ⟨m, rfl⟩ := (isPlain_iff e).mp he
  rfl

/-- C3 witness on a concrete plain error. -/
theorem unwrapAll_dispatch_witness :
    UnwrapAll (GoErr.plain "disk full") = [GoErr.plain "disk full"] :=
  unwrapAll_dispatch.2.2 (GoErr.plain "disk full") rfl

/-- C4: `New` returns a Diagnosis argument unchanged (so it is idempotent),
and lifts any non-Diagnosis error to a fresh single-element diagnosis. -/
theorem new_idempotent :
    (∀ e : GoErr, isDiagnosis e = true → New e = e) ∧
    (∀ e : GoErr, New (New e) = New e) ∧
    (∀ e : GoErr, isDiagnosis e = false → New e = GoErr.diag [e]) := by
  refine ⟨fun e he => ?_, fun e => ?_, fun e he => ?_⟩ <;>
    cases e <;> simp_all [isDiagnosis, New]

/-- C4 witness: `New` on a concrete diagnosis and on a plain error. -/
theorem new_idempotent_witness :
    New (GoErr.diag [GoErr.plain "x"]) = GoErr.diag [GoErr.plain "x"] ∧
    New (GoErr.plain "x") = GoErr.diag [GoErr.plain "x"] :=
  ⟨new_idempotent.1 (GoErr.diag [GoErr.plain "x"]) rfl,
   new_idempotent.2.2 (GoErr.plain "x") rfl⟩

/-- C5: for a plain (non-Diagnosis) error `e`, `Cause e = e` and
`Cause (New e) = e`; `Cause` is a total function, returning a result on
every input. -/
theorem cause_plain_identity :
    (∀ e : GoErr, isPlain e = true → Cause e = e ∧ Cause (New e) = e) ∧
    (∀ e : GoErr, ∃ r, Cause e = r) := by
  refine ⟨fun e he => ?_, fun e => ⟨_, rfl⟩⟩
  obtain ⟨m, rfl⟩ := (isPlain_iff e).mp he
  exact ⟨rfl, rfl⟩

/-- C5 witness on a concrete plain error. -/
theorem cause_plain_identity_witness :
    Cause (GoErr.plain "disk full") = GoErr.plain "disk full" ∧
    Cause (New (GoErr.plain "disk full")) = GoErr.plain "disk full" :=
  cause_plain_identity.1 (GoErr.plain "disk full") rfl

/-- C6: any implementation of the three required Diagnosis methods whose
`Unwrap` satisfies the peeling contract (`Simulates`, which the concrete
diagnosis does under the identity abstraction) is handled correctly by the
iterative-peel fallback of `UnwrapAll`: peeling newest-first and reversing
recovers the oldest-first layer list; in particular the peel applied to a
concrete non-empty diagnosis reproduces its stored slice exactly. -/
theorem unwrapAll_peel_refines_stored :
    (∀ (S : Type) (u : S → Option S × GoErr) (abs : S → List GoErr),
      Simulates u abs → ∀ (fuel : Nat) (s : S), abs s ≠ [] →
        (abs s).length ≤ fuel → unwrapAllViaPeel u fuel s = abs s) ∧
    (∀ (d : List GoErr) (fuel : Nat), d ≠ [] → d.length ≤ fuel →
      unwrapAllViaPeel diagUnwrap fuel d = d) := by
  have main : ∀ (S : Type) (u : S → Option S × GoErr) (abs : S → List GoErr),
      Simulates u abs → ∀ (fuel : Nat) (s : S), abs s ≠ [] →
        (abs s).length ≤ fuel → unwrapAllViaPeel u fuel s = abs s := by
    intro S u abs hsim fuel s hne hlen
    rw [unwrapAllViaPeel, peelLoop_eq u abs hsim fuel s hne hlen, List.reverse_reverse]
  exact ⟨main, fun d fuel hne hlen =>
    main (List GoErr) diagUnwrap id diagUnwrap_simulates_id fuel d hne hlen⟩

/-- C6 witness: the iterative peel on a concrete two-layer diagnosis. -/
theorem unwrapAll_peel_refines_stored_witness :
    unwrapAllViaPeel diagUnwrap 2 [GoErr.plain "a", GoErr.plain "b"]
      = [GoErr.plain "a", GoErr.plain "b"] :=
  unwrapAll_peel_refines_stored.2 [GoErr.plain "a", GoErr.plain "b"] 2
    (by simp) (by simp)

/-- C7: on a zero-length concrete diagnosis, `Error()` is `""`, `Cause()`
is nil, and `Unwrap()` is `(nil, nil)`; on any non-empty diagnosis,
`Error()` is the message of the last (most recent) element. -/
theorem zero_length_diagnosis_spec :
    diagError [] = "" ∧ diagCause [] = GoErr.nil ∧
    diagUnwrap [] = (none, GoErr.nil) ∧
    (∀ l : List GoErr, l ≠ [] → diagError l = errMsg (l.getLastD GoErr.nil)) := by
  refine ⟨by simp [diagError, errMsg], rfl, rfl, fun l hl => ?_⟩
  induction l with
  | nil => exact absurd rfl hl
  | cons a t ih =>
    cases t with
    | nil => simp [diagError, errMsg]
    | cons b t' =>
      have := ih (by simp)
      simp only [diagError, errMsg] at this ⊢
      rw [this]
      simp

/-- C7 witness: the last element's message on a concrete two-layer
diagnosis. -/
theorem zero_length_diagnosis_spec_witness :
    diagError [GoErr.plain "x", GoErr.plain "y"]
      = errMsg ([GoErr.plain "x", GoErr.plain "y"].getLastD GoErr.nil) :=
  zero_length_diagnosis_spec.2.2.2 [GoErr.plain "x", GoErr.plain "y"] (by simp)

/-- C8: two diagnoses obtained by wrapping the same predecessor are not
guaranteed independent: there is a heap, a predecessor slice with spare
backing capacity, and distinct errors `eA ≠ eB` such that after
`a := base.Wrap(eA)` and then `b := base.Wrap(eB)`, the second append has
overwritten the first one's element in the shared backing array, so `a`
observes `eB` where it held `eA`. -/
theorem wrap_aliasing_hazard :
    ∃ (h : Heap) (base : Slice) (eA eB : GoErr), eA ≠ eB ∧
      base.len < (readArr h base.arr).length ∧
      sliceView (wrapS h base eA).1 (wrapS h base eA).2
        = sliceView h base ++ [eA] ∧
      sliceView (wrapS (wrapS h base eA).1 base eB).1 (wrapS h base eA).2
        = sliceView h base ++ [eB] := by
  refine ⟨[[GoErr.plain "e0", GoErr.nil]], ⟨0, 1⟩, GoErr.plain "A", GoErr.plain "B",
    ?_, ?_, rfl, rfl⟩
  · intro hc
    injection hc with hc
    exact absurd hc (by decide)
  · decide

/-- C9: each of `New`, `Cause`, `Wrap`, `Unwrap`, `UnwrapAll` is a total
operation: on every input (nil included) it returns a result — `New` and
`Wrap` always a Diagnosis — and no operation signals a failure of its
own. -/
theorem operations_total (e a : GoErr) :
    isDiagnosis (New e) = true ∧ isDiagnosis (Wrap e a) = true ∧
    (∃ c, Cause e = c) ∧ (∃ p, Unwrap e = p) ∧ (∃ l, UnwrapAll e = l) := by
  refine ⟨?_, ?_, ⟨_, rfl⟩, ⟨_, rfl⟩, ⟨_, rfl⟩⟩ <;> cases e <;> rfl

/-- C10: every concrete diagnosis reachable through the public interface
(`New` on a non-Diagnosis error, `Wrap`, or the remaining Diagnosis of an
`Unwrap`) is non-empty; the free `Wrap` always returns a non-empty
diagnosis, and `Unwrap` never returns a present-but-empty remaining
diagnosis (it returns nil instead). -/
theorem public_diagnosis_nonempty :
    (∀ d : List GoErr, ReachesDiag d → d ≠ []) ∧
    (∀ (e a : GoErr) (l : List GoErr), Wrap e a = GoErr.diag l → l ≠ []) ∧
    (∀ (err : GoErr) (d' : List GoErr) (x : GoErr),
      Unwrap err = (some d', x) → d' ≠ []) := by
  have hu : ∀ (d d' : List GoErr) (x : GoErr),
      diagUnwrap d = (some d', x) → d' ≠ [] := by
    intro d d' x h
    match d with
    | [] => simp [diagUnwrap] at h
    | [e] => simp [diagUnwrap] at h
    | a :: b :: t =>
      simp only [diagUnwrap, Prod.mk.injEq, Option.some.injEq] at h
      rw [← h.1]
      simp [List.dropLast_cons₂]
  refine ⟨?_, ?_, ?_⟩
  · intro d hd
    induction hd with
    | new e he => simp
    | wrap d e hd ih => simp [diagWrap]
    | unwrap d d' e hd h ih => exact hu d d' e h
  · intro e a l h
    cases e <;>
      · injection h with h
        rw [← h]
        simp [diagWrap]
  · intro err d' x h
    cases err with
    | diag d => exact hu d d' x h
    | nil => simp [Unwrap] at h
    | plain m => simp [Unwrap] at h

/-- C10 witness: the diagnosis produced by `New` on a plain error is
reachable and non-empty, and a concrete `Wrap` result is non-empty. -/
theorem public_diagnosis_nonempty_witness :
    [GoErr.plain "x"] ≠ ([] : List GoErr) ∧
    [GoErr.nil, GoErr.nil] ≠ ([] : List GoErr) :=
  ⟨public_diagnosis_nonempty.1 [GoErr.plain "x"]
      (ReachesDiag.new (GoErr.plain "x") rfl),
   public_diagnosis_nonempty.2.1 GoErr.nil GoErr.nil [GoErr.nil, GoErr.nil] rfl⟩

end Errgo
